import Mathlib

/-!
Verification of `src/visible_cnn.py` (PokemonAI-VoltorbFlip).

The file shallowly embeds the Python/PyTorch program:
  * tensor shapes are `List Nat`, and every shape-changing PyTorch
    operation used by `VoltorbFlipCNN` is modelled as a function
    `List Nat → Option (List Nat)` (`none` models the runtime error the
    framework raises on a shape mismatch);
  * tensor values are real numbers; an image of `c` channels and `h × w`
    pixels is a function `Fin c → Fin h → Fin w → ℝ`, and convolution,
    max-pooling, ReLU, flattening, linear layers and the sigmoid are
    translated directly from the calls in `VoltorbFlipCNN.forward`;
  * label rows and one-hot encodings are `List Nat` (label entries are
    the nonnegative class indices read from the CSV);
  * fallible operations (`Image.open` on a missing file, `F.one_hot` on
    an out-of-range class index, `iloc` on a bad row index) return
    `Option`, with `none` standing for the uncaught Python exception.
-/

/-! ## Constants of `VoltorbFlipCNN` -/

/-- Constant `VoltorbFlipCNN.N_CLASSES = 13`. -/
def N_CLASSES : Nat := 13

/-- Constant `VoltorbFlipCNN.N_FEATURES = 45`. -/
def N_FEATURES : Nat := 45

/-! ## Shape-level model of the network

PyTorch shape semantics for the layers used by the model.  A shape is the
list of tensor dimensions; an operation returns `none` exactly when the
real framework would raise a shape error. -/

/-- Output spatial extent of a convolution / pooling window:
`(d + 2*padding - kernel) / stride + 1`. -/
def convOutDim (kernel stride padding d : Nat) : Nat :=
  (d + 2 * padding - kernel) / stride + 1

/-- Shape of `nn.Conv2d(cin, cout, kernel_size=3, stride=1, padding=1)`
applied to a `[b, c, h, w]` tensor.  The channel count must match. -/
def conv2dShape (cin cout : Nat) : List Nat → Option (List Nat)
  | [b, c, h, w] =>
      if c = cin then some [b, cout, convOutDim 3 1 1 h, convOutDim 3 1 1 w]
      else none
  | _ => none

/-- Shape of `F.max_pool2d(x, 2)` on a `[b, c, h, w]` tensor. -/
def maxPool2dShape : List Nat → Option (List Nat)
  | [b, c, h, w] => some [b, c, convOutDim 2 2 0 h, convOutDim 2 2 0 w]
  | _ => none

/-- Shape of `x.view(x.size(0), -1)`: flatten all non-batch dimensions. -/
def flattenShape : List Nat → Option (List Nat)
  | [] => none
  | b :: rest => some [b, rest.prod]

/-- Shape of `nn.Linear(din, dout)` applied to a `[b, d]` tensor. -/
def linearShape (din dout : Nat) : List Nat → Option (List Nat)
  | [b, d] => if d = din then some [b, dout] else none
  | _ => none

/-- The convolutional trunk shared by `_get_flattened_size` and `forward`:
`conv1` / ReLU / pool, `conv2` / ReLU / pool, `conv3` / ReLU.
(ReLU is element-wise and leaves the shape unchanged.) -/
def convStackShape (s : List Nat) : Option (List Nat) :=
  (conv2dShape 3 32 s).bind fun s1 =>
  (maxPool2dShape s1).bind fun s2 =>
  (conv2dShape 32 64 s2).bind fun s3 =>
  (maxPool2dShape s3).bind fun s4 =>
  conv2dShape 64 128 s4

/-- Method `VoltorbFlipCNN._get_flattened_size`: run a dummy `[1, 3, 32, 32]`
input through the convolutional trunk and return `x.view(1, -1).size(1)`,
the product of the non-batch dimensions. -/
def get_flattened_size : Nat :=
  match convStackShape [1, 3, 32, 32] with
  | some s => (s.drop 1).prod
  | none => 0

/-- Attribute `self.flattened_size`, the in-feature count of `fc1`. -/
def flattened_size : Nat := get_flattened_size

/-- Shape behaviour of `VoltorbFlipCNN.forward`: the convolutional trunk,
the flatten, `fc1 : Linear(flattened_size, 256)` with ReLU, and
`fc2 : Linear(256, 585)` followed by the element-wise sigmoid (which
keeps the shape). -/
def forwardShape (s : List Nat) : Option (List Nat) :=
  (convStackShape s).bind fun s1 =>
  (flattenShape s1).bind fun s2 =>
  (linearShape flattened_size 256 s2).bind fun s3 =>
  linearShape 256 585 s3

/-! ## One-hot encoding and per-cell arg-max decoding

`VoltorbFlipScreenshotDataset.__getitem__` encodes a label row with
`F.one_hot(torch.tensor(labels), num_classes=13).flatten()`;
`Trainer.evaluate` and `VoltorbFlipCNN.predict` decode a flat tensor with
`torch.max(t.view(-1, 13), 1)`, the index of the first maximum in each
row of 13. -/

/-- The one-hot row `F.one_hot` produces for a valid class index `v`. -/
def oneHotRow (v : Nat) : List Nat :=
  (List.range N_CLASSES).map fun j => if j = v then 1 else 0

/-- Call `F.one_hot(v, num_classes)`: `none` models the `RuntimeError` raised
when the class index is out of range. -/
def oneHot (num v : Nat) : Option (List Nat) :=
  if v < num then
    some ((List.range num).map fun j => if j = v then 1 else 0)
  else none

/-- Call `F.one_hot(torch.tensor(labels), N_CLASSES).flatten()`: one-hot each
entry of the label row and concatenate; fails if any entry is out of
range. -/
def encodeLabels : List Nat → Option (List Nat)
  | [] => some []
  | v :: rest =>
    match oneHot N_CLASSES v, encodeLabels rest with
    | some h, some t => some (h ++ t)
    | _, _ => none

/-- Reshape `t.view(-1, n)`: split a flat list into consecutive rows of `n`. -/
def chunksOf {α : Type} : Nat → List α → List (List α)
  | _, [] => []
  | 0, _ :: _ => []
  | n + 1, a :: l =>
    (a :: l).take (n + 1) :: chunksOf (n + 1) ((a :: l).drop (n + 1))
  termination_by _ l => l.length
  decreasing_by
    simp only [List.drop_succ_cons, List.length_drop, List.length_cons]
    omega

/-- Index of the first maximum, scanning `l` from position `i` with
current best index `bi` and best value `bv`. -/
def argmaxAux {α : Type} [LinearOrder α] : List α → Nat → Nat → α → Nat
  | [], _, bi, _ => bi
  | a :: l, i, bi, bv =>
    if bv < a then argmaxAux l (i + 1) i a else argmaxAux l (i + 1) bi bv

/-- Decode `torch.max(row, dim)[1]` for one row: the index of the first maximal
element (0 on an empty row). -/
def argmaxIdx {α : Type} [LinearOrder α] : List α → Nat
  | [] => 0
  | a :: l => argmaxAux l 1 0 a

/-- The per-cell decoding `torch.max(t.view(-1, N_CLASSES), 1)[1]` used by
`Trainer.evaluate` and `VoltorbFlipCNN.predict`. -/
def decodePerCell {α : Type} [LinearOrder α] (l : List α) : List Nat :=
  (chunksOf N_CLASSES l).map argmaxIdx

/-! ## Dataset: `VoltorbFlipScreenshotDataset` -/

/-- Join `os.path.join(a, b)` for the relative file names used here:
keep `a` as-is when it is empty or already ends with the separator. -/
def pathJoin (a b : String) : String :=
  if a = "" ∨ a.endsWith "/" then a ++ b else a ++ "/" ++ b

/-- State of a `VoltorbFlipScreenshotDataset`: the image directory, the
label table (`visible_states`, one row per screenshot), and the optional
transform.  `ι` is the type of images. -/
structure VoltorbFlipScreenshotDataset (ι : Type) where
  image_folder : String
  visible_states : List (List Nat)
  transform : Option (ι → ι)

/-- Conditional `if self.transform: image = self.transform(image)`. -/
def applyTransform {ι : Type} (t : Option (ι → ι)) (img : ι) : ι :=
  match t with
  | some f => f img
  | none => img

/-- Method `VoltorbFlipScreenshotDataset.__getitem__`.  `fs` models the
file system seen by `Image.open` (`none` = missing file), `rgb` models
`Image.convert('RGB')`.  The result is `none` exactly when the Python
call would raise: missing image file, bad row index, or a label entry
out of range for `F.one_hot`. -/
def getItem {ι : Type} (fs : String → Option ι) (rgb : ι → ι)
    (ds : VoltorbFlipScreenshotDataset ι) (idx : Nat) :
    Option (ι × List Nat) :=
  match fs (pathJoin ds.image_folder (toString idx ++ ".png")) with
  | none => none
  | some img0 =>
    let image := rgb img0
    match ds.visible_states.get? idx with
    | none => none
    | some row =>
      match encodeLabels (row.drop 1) with
      | none => none
      | some encoded_labels =>
        some (applyTransform ds.transform image, encoded_labels)

/-! ## Train/test split in `main` -/

/-- Size `int(0.8 * len(dataset))` computed in `main` (with the product
taken in exact arithmetic, `⌊4n/5⌋`). -/
def train_size (n : Nat) : Nat := 4 * n / 5

/-- Split `torch.utils.data.random_split(ds, [t, n - t])`: draw a random
permutation `perm` of the dataset indices and slice it into consecutive
runs of the requested lengths. -/
def random_split (perm : List Nat) (t : Nat) : List Nat × List Nat :=
  (perm.take t, perm.drop t)

/-! ## Trainer.evaluate -/

/-- One minibatch of `Trainer.evaluate`'s loop: run the model, decode
output and labels per cell, add the matching cells to `correct` (first
component) and the cell count `decoded_labels.shape.numel()` to `total`
(second component).  `model` maps a batch of screenshots (type `σ`) to
its flat output tensor. -/
def evaluateStep {σ α : Type} [LinearOrder α] (model : σ → List α)
    (ct : Nat × Nat) (batch : σ × List α) : Nat × Nat :=
  let decoded_output := decodePerCell (model batch.1)
  let decoded_labels := decodePerCell batch.2
  (ct.1 + ((decoded_output.zip decoded_labels).countP fun p => p.1 == p.2),
   ct.2 + decoded_labels.length)

/-- Final `(correct, total)` pair of `Trainer.evaluate`'s loop over the
test loader. -/
def evaluateCounts {σ α : Type} [LinearOrder α] (model : σ → List α)
    (batches : List (σ × List α)) : Nat × Nat :=
  batches.foldl (evaluateStep model) (0, 0)

/-- Accuracy `correct / total * 100` reported by `Trainer.evaluate`. -/
def evaluateAccuracy {σ α : Type} [LinearOrder α] (model : σ → List α)
    (batches : List (σ × List α)) : ℚ :=
  ((evaluateCounts model batches).1 : ℚ)
    / ((evaluateCounts model batches).2 : ℚ) * 100

/-! ## The statement sequence of `main` -/

/-- The observable top-level actions of `main`, in source order. -/
inductive MainAction : Type
  | readCsv
  | buildDataset
  | randomSplitData
  | makeTrainLoader
  | makeTestLoader
  | initModel
  | initOptimizer
  | initLossFn
  | buildTrainer
  | trainerTrain
  | trainerEvaluate
  | trainerSaveModel
  | trainerPrintWeights
deriving DecidableEq

/-- Body of `main`: the sequence of top-level actions it performs. -/
def mainActions : List MainAction :=
  [MainAction.readCsv, MainAction.buildDataset, MainAction.randomSplitData,
   MainAction.makeTrainLoader, MainAction.makeTestLoader,
   MainAction.initModel, MainAction.initOptimizer, MainAction.initLossFn,
   MainAction.buildTrainer,
   MainAction.trainerTrain, MainAction.trainerEvaluate,
   MainAction.trainerSaveModel, MainAction.trainerPrintWeights]

/-- Predicate selecting the `Trainer` method invocations of `main`. -/
def isTrainerCall : MainAction → Bool
  | MainAction.trainerTrain => true
  | MainAction.trainerEvaluate => true
  | MainAction.trainerSaveModel => true
  | MainAction.trainerPrintWeights => true
  | _ => false

/-! ## Value-level model of `VoltorbFlipCNN.forward` and `predict`

Tensor entries are real numbers; an image tensor is indexed by channel,
row and column. -/

/-- A `c`-channel `h × w` real-valued image tensor. -/
def Img (c h w : Nat) : Type := Fin c → Fin h → Fin w → ℝ

/-- Zero-padded read of entry `(i, j)` of channel `ch` (the `padding=1`
semantics of the convolutions: zero outside the spatial bounds). -/
def padGet {c h w : Nat} (x : Img c h w) (ch : Fin c) (i j : ℤ) : ℝ :=
  if hi : 0 ≤ i ∧ i < (h : ℤ) then
    if hj : 0 ≤ j ∧ j < (w : ℤ) then
      x ch ⟨i.toNat, by omega⟩ ⟨j.toNat, by omega⟩
    else 0
  else 0

/-- Layer `nn.Conv2d(ci, co, kernel_size=3, stride=1, padding=1)`:
cross-correlation with a 3×3 kernel over the zero-padded input plus a
per-output-channel bias; spatial size is preserved. -/
def conv3x3 {ci co h w : Nat} (weight : Fin co → Fin ci → Fin 3 → Fin 3 → ℝ)
    (bias : Fin co → ℝ) (x : Img ci h w) : Img co h w :=
  fun o i j =>
    bias o + ∑ c : Fin ci, ∑ a : Fin 3, ∑ b : Fin 3,
      weight o c a b *
        padGet x c ((i.val : ℤ) + (a.val : ℤ) - 1) ((j.val : ℤ) + (b.val : ℤ) - 1)

/-- Activation `F.relu`. -/
def relu (x : ℝ) : ℝ := max x 0

/-- Element-wise ReLU on an image tensor. -/
def reluImg {c h w : Nat} (x : Img c h w) : Img c h w :=
  fun ch i j => relu (x ch i j)

/-- Pooling `F.max_pool2d(x, 2)`: maximum of each 2×2 block; spatial
extents are halved (rounding down). -/
def maxPool2 {c h w : Nat} (x : Img c h w) : Img c (h / 2) (w / 2) :=
  fun ch i j =>
    max
      (max
        (x ch ⟨2 * i.val, by have := i.isLt; omega⟩
          ⟨2 * j.val, by have := j.isLt; omega⟩)
        (x ch ⟨2 * i.val, by have := i.isLt; omega⟩
          ⟨2 * j.val + 1, by have := j.isLt; omega⟩))
      (max
        (x ch ⟨2 * i.val + 1, by have := i.isLt; omega⟩
          ⟨2 * j.val, by have := j.isLt; omega⟩)
        (x ch ⟨2 * i.val + 1, by have := i.isLt; omega⟩
          ⟨2 * j.val + 1, by have := j.isLt; omega⟩))

/-- Reshape `x.view(x.size(0), -1)` for one sample: row-major
(channel, row, column) flattening. -/
def flattenImg {c h w : Nat} (x : Img c h w) : Fin (c * h * w) → ℝ :=
  fun k =>
    have hk : k.val < c * (h * w) := lt_of_lt_of_eq k.isLt (Nat.mul_assoc c h w)
    have hh : 0 < h := by
      rcases Nat.eq_zero_or_pos h with h0 | h0
      · exfalso
        obtain ⟨kv, hkv⟩ := k
        subst h0
        simp at hkv
      · exact h0
    have hw : 0 < w := by
      rcases Nat.eq_zero_or_pos w with h0 | h0
      · exfalso
        obtain ⟨kv, hkv⟩ := k
        subst h0
        simp at hkv
      · exact h0
    x ⟨k.val / (h * w), (Nat.div_lt_iff_lt_mul (Nat.mul_pos hh hw)).mpr hk⟩
      ⟨k.val % (h * w) / w,
        (Nat.div_lt_iff_lt_mul hw).mpr (Nat.mod_lt _ (Nat.mul_pos hh hw))⟩
      ⟨k.val % w, Nat.mod_lt _ hw⟩

/-- Layer `nn.Linear(din, dout)` on one sample: `W v + b`. -/
def linearLayer {din dout : Nat} (weight : Fin dout → Fin din → ℝ)
    (bias : Fin dout → ℝ) (v : Fin din → ℝ) : Fin dout → ℝ :=
  fun j => bias j + ∑ i : Fin din, weight j i * v i

/-- Element-wise ReLU on a flat vector. -/
def reluVec {n : Nat} (v : Fin n → ℝ) : Fin n → ℝ :=
  fun j => relu (v j)

/-- Activation `F.sigmoid`. -/
noncomputable def sigmoid (x : ℝ) : ℝ := 1 / (1 + Real.exp (-x))

/-- The learned parameters of `VoltorbFlipCNN`: three 3×3 convolutions
(channel widths 3→32→64→128) and two linear layers
`fc1 : Linear(8192, 256)`, `fc2 : Linear(256, 585)`; for 32×32 inputs
`flattened_size = 8192` (theorem `forward_flatten_matches_fc1`). -/
structure Weights where
  conv1w : Fin 32 → Fin 3 → Fin 3 → Fin 3 → ℝ
  conv1b : Fin 32 → ℝ
  conv2w : Fin 64 → Fin 32 → Fin 3 → Fin 3 → ℝ
  conv2b : Fin 64 → ℝ
  conv3w : Fin 128 → Fin 64 → Fin 3 → Fin 3 → ℝ
  conv3b : Fin 128 → ℝ
  fc1w : Fin 256 → Fin 8192 → ℝ
  fc1b : Fin 256 → ℝ
  fc2w : Fin 585 → Fin 256 → ℝ
  fc2b : Fin 585 → ℝ

/-- Method `VoltorbFlipCNN.forward` on one sample: conv1 / ReLU / pool,
conv2 / ReLU / pool, conv3 / ReLU, flatten, fc1 / ReLU, fc2, sigmoid. -/
noncomputable def forward (W : Weights) (x : Img 3 32 32) : Fin 585 → ℝ :=
  let x1 := maxPool2 (reluImg (conv3x3 W.conv1w W.conv1b x))
  let x2 := maxPool2 (reluImg (conv3x3 W.conv2w W.conv2b x1))
  let x3 := reluImg (conv3x3 W.conv3w W.conv3b x2)
  let y1 := reluVec (linearLayer W.fc1w W.fc1b (flattenImg x3))
  let y2 := linearLayer W.fc2w W.fc2b y1
  fun k => sigmoid (y2 k)

/-- Method `forward` applied to a whole batch, sample by sample. -/
noncomputable def forwardBatch {b : Nat} (W : Weights)
    (xs : Fin b → Img 3 32 32) : Fin b → Fin 585 → ℝ :=
  fun s => forward W (xs s)

/-- Method `VoltorbFlipCNN.predict`: convert the input image to RGB
(`rgb`), apply `TRANSFORM` (resize to 32×32 + tensor conversion,
modelled by `tf`), run `forward`, view the 585 outputs as 45 rows of
`N_CLASSES = 13` and take the arg-max of each row. -/
noncomputable def predict {ι : Type} (W : Weights) (tf : ι → Img 3 32 32)
    (rgb : ι → ι) (input_image : ι) : List Nat :=
  let output := forward W (tf (rgb input_image))
  (List.finRange 45).map fun g =>
    argmaxIdx ((List.finRange 13).map fun j =>
      output ⟨13 * g.val + j.val, by
        have hg : g.val < 45 := g.isLt
        have hj : j.val < 13 := j.isLt
        omega⟩)

/-! ## Helper lemmas on chunking and encoding -/

theorem chunksOf_nil {α : Type} (n : Nat) : chunksOf (α := α) n [] = [] := by
  cases n <;> simp [chunksOf]

theorem chunksOf_append {α : Type} {n : Nat} {a b : List α}
    (hn : n ≠ 0) (h : a.length = n) :
    chunksOf n (a ++ b) = a :: chunksOf n b := by
  match n, a with
  | _, [] =>
    rw [List.length_nil] at h
    exact absurd h.symm hn
  | 0, _ :: _ => exact absurd rfl hn
  | m + 1, x :: xs =>
    show chunksOf (m + 1) (x :: (xs ++ b)) = _
    rw [chunksOf]
    have hx : x :: (xs ++ b) = (x :: xs) ++ b := rfl
    rw [hx, ← h, List.take_left, List.drop_left]

theorem oneHotRow_length (v : Nat) : (oneHotRow v).length = N_CLASSES := by
  simp [oneHotRow]

theorem argmaxIdx_oneHotRow : ∀ v, v < N_CLASSES → argmaxIdx (oneHotRow v) = v := by
  decide

/-- Valid label rows encode successfully, the encoding has width
`N_CLASSES` per entry, and per-cell arg-max decoding recovers the row. -/
theorem encodeLabels_valid (ls : List Nat) (hval : ∀ v ∈ ls, v < N_CLASSES) :
    ∃ e, encodeLabels ls = some e ∧ e.length = N_CLASSES * ls.length ∧
      decodePerCell e = ls := by
  induction ls with
  | nil =>
    exact ⟨[], rfl, by simp, by simp [decodePerCell, chunksOf_nil]⟩
  | cons v rest ih =>
    have hv : v < N_CLASSES := hval v (List.mem_cons_self v rest)
    obtain ⟨e, he, hlen, hdec⟩ := ih fun w hw => hval w (List.mem_cons_of_mem v hw)
    refine ⟨oneHotRow v ++ e, ?_, ?_, ?_⟩
    · show encodeLabels (v :: rest) = _
      have h1 : oneHot N_CLASSES v = some (oneHotRow v) := by
        rw [oneHot, if_pos hv]
        rfl
      simp [encodeLabels, h1, he]
    · simp [hlen, oneHotRow_length]
      ring
    · rw [decodePerCell,
        chunksOf_append (by decide) (oneHotRow_length v),
        List.map_cons, argmaxIdx_oneHotRow v hv]
      rw [decodePerCell] at hdec
      rw [hdec]

/-! ## C1 and C10: output and intermediate shapes -/

/-- C1: for every input batch of shape `(batch, 3, 32, 32)`,
`VoltorbFlipCNN.forward` returns a tensor of shape `(batch, 585)`,
where `585 = N_FEATURES * N_CLASSES = 45 * 13`. -/
theorem forward_shape_batch_585 (b : Nat) :
    forwardShape [b, 3, 32, 32] = some [b, N_FEATURES * N_CLASSES] := by
  rfl

/-- C10: on a `(batch, 3, 32, 32)` input, the tensor flattened inside
`forward` has exactly `get_flattened_size` features — the value computed
at construction time — so `fc1` applies without a shape mismatch and
yields a `(batch, 256)` tensor. -/
theorem forward_flatten_matches_fc1 (b : Nat) :
    (convStackShape [b, 3, 32, 32]).bind flattenShape
      = some [b, get_flattened_size] ∧
    ((convStackShape [b, 3, 32, 32]).bind flattenShape).bind
        (linearShape flattened_size 256)
      = some [b, 256] := by
  exact ⟨rfl, rfl⟩

/-! ## C2: one-hot encode / arg-max decode round-trip -/

/-- C2: for every label vector of 45 entries each in `[0, 13)`, the
585-wide one-hot encoding built by `__getitem__` decodes back to the
original indices under the per-cell arg-max used by `Trainer.evaluate`. -/
theorem onehot_argmax_roundtrip (labels : List Nat)
    (hlen : labels.length = N_FEATURES)
    (hval : ∀ v ∈ labels, v < N_CLASSES) :
    ∃ e, encodeLabels labels = some e ∧ e.length = N_CLASSES * N_FEATURES ∧
      decodePerCell e = labels := by
  obtain ⟨e, he, hl, hd⟩ := encodeLabels_valid labels hval
  exact ⟨e, he, by rw [hl, hlen], hd⟩

/-- Witness for C2 at the concrete 45-entry label vector
`[0 % 13, 1 % 13, …, 44 % 13]`. -/
theorem onehot_argmax_roundtrip_witness :
    (((List.range 45).map fun i => i % 13).length = N_FEATURES ∧
      ∀ v ∈ (List.range 45).map fun i => i % 13, v < N_CLASSES) ∧
    ∃ e, encodeLabels ((List.range 45).map fun i => i % 13) = some e ∧
      e.length = N_CLASSES * N_FEATURES ∧
      decodePerCell e = (List.range 45).map fun i => i % 13 :=
  ⟨⟨by decide, by decide⟩,
    onehot_argmax_roundtrip _ (by decide) (by decide)⟩

/-! ## C3: train/test split sizes and disjointness -/

/-- C3: for a dataset of length `N`, the split of `main`
(`train_size = int(0.8 * N)`, `test_size = N - train_size`, realized by
`random_split` over a permutation of the indices) yields two index
subsets whose sizes sum to `N` and which are disjoint. -/
theorem random_split_sizes_disjoint (N : Nat) (perm : List Nat)
    (hperm : perm.Perm (List.range N)) :
    (random_split perm (train_size N)).1.length
        + (random_split perm (train_size N)).2.length = N ∧
    ∀ x ∈ (random_split perm (train_size N)).1,
      x ∉ (random_split perm (train_size N)).2 := by
  have hlen : perm.length = N := by
    rw [hperm.length_eq, List.length_range]
  have ht : train_size N ≤ N := by
    show 4 * N / 5 ≤ N
    omega
  constructor
  · simp only [random_split, List.length_take, List.length_drop, hlen]
    omega
  · have hnd : perm.Nodup := hperm.nodup_iff.mpr (List.nodup_range N)
    intro x hx hx2
    exact List.disjoint_take_drop hnd le_rfl hx hx2

/-- Witness for C3 with `N = 5` and the permutation `[4, 0, 2, 1, 3]`. -/
theorem random_split_sizes_disjoint_witness :
    ([4, 0, 2, 1, 3] : List Nat).Perm (List.range 5) ∧
    ((random_split [4, 0, 2, 1, 3] (train_size 5)).1.length
        + (random_split [4, 0, 2, 1, 3] (train_size 5)).2.length = 5 ∧
      ∀ x ∈ (random_split [4, 0, 2, 1, 3] (train_size 5)).1,
        x ∉ (random_split [4, 0, 2, 1, 3] (train_size 5)).2) :=
  ⟨by decide, random_split_sizes_disjoint 5 [4, 0, 2, 1, 3] (by decide)⟩

/-! ## C5 and C6: `__getitem__` behaviour -/

theorem encodeLabels_none_of_bad (ls : List Nat)
    (h : ∃ v ∈ ls, N_CLASSES ≤ v) : encodeLabels ls = none := by
  induction ls with
  | nil =>
    obtain ⟨v, hv, _⟩ := h
    exact absurd hv (List.not_mem_nil v)
  | cons a rest ih =>
    obtain ⟨v, hv, hge⟩ := h
    rcases List.mem_cons.mp hv with rfl | hmem
    · have : oneHot N_CLASSES v = none := by
        rw [oneHot, if_neg (by omega)]
      rw [encodeLabels, this]
    · rw [encodeLabels, ih ⟨v, hmem, hge⟩]
      cases oneHot N_CLASSES a <;> rfl

/-- C5: for every valid index, `__getitem__` opens `{idx}.png` from the
configured image directory, converts to RGB, applies the configured
transform, and one-hot-encodes the label row with its first column
skipped into a flat target vector of width `585 = 45 * 13`. -/
theorem getitem_valid_index {ι : Type} (fs : String → Option ι) (rgb : ι → ι)
    (ds : VoltorbFlipScreenshotDataset ι) (idx : Nat) (img : ι)
    (row : List Nat)
    (himg : fs (pathJoin ds.image_folder (toString idx ++ ".png")) = some img)
    (hrow : ds.visible_states.get? idx = some row)
    (hlen : row.length = 46)
    (hval : ∀ v ∈ row.drop 1, v < N_CLASSES) :
    ∃ enc, encodeLabels (row.drop 1) = some enc ∧
      enc.length = N_FEATURES * N_CLASSES ∧
      getItem fs rgb ds idx = some (applyTransform ds.transform (rgb img), enc) := by
  obtain ⟨enc, henc, hel, _⟩ := encodeLabels_valid (row.drop 1) hval
  refine ⟨enc, henc, ?_, ?_⟩
  · rw [hel, List.length_drop, hlen]
    rfl
  · simp only [getItem, himg, hrow, henc]

/-- Witness for C5: a one-row all-zero label table, a file system holding
the requested image, and the identity transform. -/
theorem getitem_valid_index_witness :
    ((fun _ : String => some ()) (pathJoin "shots/" (toString 0 ++ ".png"))
        = some () ∧
      (VoltorbFlipScreenshotDataset.mk "shots/" [List.replicate 46 0]
          (some (id : Unit → Unit))).visible_states.get? 0
        = some (List.replicate 46 0) ∧
      (List.replicate 46 0).length = 46 ∧
      ∀ v ∈ (List.replicate 46 0).drop 1, v < N_CLASSES) ∧
    ∃ enc, encodeLabels ((List.replicate 46 0).drop 1) = some enc ∧
      enc.length = N_FEATURES * N_CLASSES ∧
      getItem (fun _ : String => some ()) id
          (VoltorbFlipScreenshotDataset.mk "shots/" [List.replicate 46 0]
            (some (id : Unit → Unit))) 0
        = some (applyTransform (some (id : Unit → Unit)) (id ()), enc) :=
  ⟨⟨rfl, rfl, by decide, by decide⟩,
    getitem_valid_index (fun _ : String => some ()) id
      (VoltorbFlipScreenshotDataset.mk "shots/" [List.replicate 46 0]
        (some (id : Unit → Unit))) 0 ()
      (List.replicate 46 0) rfl rfl (by decide) (by decide)⟩

/-- C6: `__getitem__` has no error handling: a missing image file or a
label entry outside `[0, N_CLASSES)` makes the call fail (an uncaught
exception, modelled by `none`) instead of returning a default. -/
theorem getitem_error_propagation {ι : Type} (fs : String → Option ι)
    (rgb : ι → ι) (ds : VoltorbFlipScreenshotDataset ι) (idx : Nat)
    (h : fs (pathJoin ds.image_folder (toString idx ++ ".png")) = none ∨
      ∃ row, ds.visible_states.get? idx = some row ∧
        ∃ v ∈ row.drop 1, N_CLASSES ≤ v) :
    getItem fs rgb ds idx = none := by
  rcases h with hmiss | ⟨row, hrow, hbad⟩
  · simp only [getItem, hmiss]
  · cases hfs : fs (pathJoin ds.image_folder (toString idx ++ ".png")) with
    | none => simp only [getItem, hfs]
    | some img0 =>
      simp only [getItem, hfs, hrow,
        encodeLabels_none_of_bad (row.drop 1) hbad]

/-- Witness for C6: the file system is empty, so the image is missing. -/
theorem getitem_error_propagation_witness :
    ((fun _ : String => (none : Option Unit))
        (pathJoin "shots/" (toString 0 ++ ".png")) = none ∨
      ∃ row, (VoltorbFlipScreenshotDataset.mk "shots/" ([] : List (List Nat))
          (none : Option (Unit → Unit))).visible_states.get? 0 = some row ∧
        ∃ v ∈ row.drop 1, N_CLASSES ≤ v) ∧
    getItem (fun _ : String => (none : Option Unit)) id
        (VoltorbFlipScreenshotDataset.mk "shots/" ([] : List (List Nat))
          (none : Option (Unit → Unit))) 0 = none :=
  ⟨Or.inl rfl,
    getitem_error_propagation (fun _ : String => (none : Option Unit)) id
      (VoltorbFlipScreenshotDataset.mk "shots/" ([] : List (List Nat))
        (none : Option (Unit → Unit))) 0 (Or.inl rfl)⟩

/-! ## C8: order of Trainer calls in `main` -/

/-- C8: after the construction steps, `main` invokes exactly
`trainer.train()`, `trainer.evaluate()`, `trainer.save_model()`,
`trainer.print_weights()`, in that order: the trainer calls of
`mainActions` are exactly these four, and they form the tail of `main`
after all non-trainer construction steps. -/
theorem main_trainer_call_order :
    mainActions.filter isTrainerCall
      = [MainAction.trainerTrain, MainAction.trainerEvaluate,
         MainAction.trainerSaveModel, MainAction.trainerPrintWeights] ∧
    mainActions.takeWhile (fun a => !isTrainerCall a)
        ++ [MainAction.trainerTrain, MainAction.trainerEvaluate,
            MainAction.trainerSaveModel, MainAction.trainerPrintWeights]
      = mainActions := by
  decide

/-! ## C4: accuracy on an all-correct prediction set -/

theorem countP_zip_self (l : List Nat) :
    ((l.zip l).countP fun p => p.1 == p.2) = l.length := by
  induction l with
  | nil => rfl
  | cons x t ih => simp [List.zip_cons_cons, List.countP_cons, ih]

theorem evaluateCounts_fst_eq_snd {σ α : Type} [LinearOrder α]
    (model : σ → List α) (batches : List (σ × List α)) :
    ∀ ct : Nat × Nat,
      (∀ b ∈ batches, decodePerCell (model b.1) = decodePerCell b.2) →
      ct.1 = ct.2 →
      (batches.foldl (evaluateStep model) ct).1
        = (batches.foldl (evaluateStep model) ct).2 := by
  induction batches with
  | nil => intro ct _ h; exact h
  | cons b rest ih =>
    intro ct hall h
    rw [List.foldl_cons]
    apply ih _ fun x hx => hall x (List.mem_cons_of_mem b hx)
    have hb := hall b (List.mem_cons_self b rest)
    simp only [evaluateStep]
    rw [hb, countP_zip_self, h]

theorem evaluateCounts_snd_mono {σ α : Type} [LinearOrder α]
    (model : σ → List α) (batches : List (σ × List α)) :
    ∀ ct : Nat × Nat, ct.2 ≤ (batches.foldl (evaluateStep model) ct).2 := by
  induction batches with
  | nil => intro ct; exact le_rfl
  | cons b rest ih =>
    intro ct
    rw [List.foldl_cons]
    calc ct.2 ≤ (evaluateStep model ct b).2 := by simp [evaluateStep]
      _ ≤ _ := ih _

theorem chunksOf_ne_nil {α : Type} {n : Nat} {l : List α}
    (hn : n ≠ 0) (hl : l ≠ []) : chunksOf n l ≠ [] := by
  match n, l with
  | 0, _ => exact absurd rfl hn
  | _ + 1, [] => exact absurd rfl hl
  | m + 1, x :: xs =>
    rw [chunksOf]
    exact List.cons_ne_nil _ _

theorem decodePerCell_ne_nil {α : Type} [LinearOrder α] {l : List α}
    (hl : l ≠ []) : decodePerCell l ≠ [] := by
  rw [decodePerCell]
  intro h
  exact chunksOf_ne_nil (n := N_CLASSES) (by decide) hl (List.map_eq_nil_iff.mp h)

/-- C4: on a non-empty held-out set, if for every batch the per-cell
arg-max of the model output agrees with the per-cell arg-max of the
one-hot labels at every position, then the accuracy computed by
`Trainer.evaluate` (`correct / total * 100`, `total` counting cells)
equals 100. -/
theorem evaluate_accuracy_100 {σ α : Type} [LinearOrder α]
    (model : σ → List α) (batches : List (σ × List α))
    (hne : batches ≠ [])
    (hcells : ∀ b ∈ batches, b.2 ≠ [])
    (hmatch : ∀ b ∈ batches, decodePerCell (model b.1) = decodePerCell b.2) :
    evaluateAccuracy model batches = 100 := by
  have hEq : (evaluateCounts model batches).1 = (evaluateCounts model batches).2 :=
    evaluateCounts_fst_eq_snd model batches (0, 0) hmatch rfl
  have hpos : 0 < (evaluateCounts model batches).2 := by
    match batches, hne with
    | b :: rest, _ =>
      have h1 : 0 < (evaluateStep model (0, 0) b).2 := by
        simp only [evaluateStep]
        have h2 := List.length_pos.mpr
          (decodePerCell_ne_nil (hcells b (List.mem_cons_self b rest)))
        omega
      calc 0 < (evaluateStep model (0, 0) b).2 := h1
        _ ≤ (evaluateCounts model (b :: rest)).2 := by
            rw [evaluateCounts, List.foldl_cons]
            exact evaluateCounts_snd_mono model rest _
  rw [evaluateAccuracy, hEq]
  have hne0 : ((evaluateCounts model batches).2 : ℚ) ≠ 0 :=
    Nat.cast_ne_zero.mpr (Nat.pos_iff_ne_zero.mp hpos)
  rw [div_self hne0, one_mul]

/-- Witness for C4: a single batch whose model output and one-hot labels
decode to the same cell. -/
theorem evaluate_accuracy_100_witness :
    (([((), (List.range 13).map fun j => if j = 5 then (1 : ℚ) else 0)] :
        List (Unit × List ℚ)) ≠ [] ∧
      (∀ b ∈ ([((), (List.range 13).map fun j => if j = 5 then (1 : ℚ) else 0)] :
          List (Unit × List ℚ)), b.2 ≠ []) ∧
      ∀ b ∈ ([((), (List.range 13).map fun j => if j = 5 then (1 : ℚ) else 0)] :
          List (Unit × List ℚ)),
        decodePerCell
            ((fun _ : Unit =>
              (List.range 13).map fun j => if j = 5 then (1 : ℚ) else 0) b.1)
          = decodePerCell b.2) ∧
    evaluateAccuracy
        (fun _ : Unit =>
          (List.range 13).map fun j => if j = 5 then (1 : ℚ) else 0)
        [((), (List.range 13).map fun j => if j = 5 then (1 : ℚ) else 0)]
      = 100 :=
  ⟨⟨by decide, by decide, by
      intro b hb
      rw [List.mem_singleton] at hb
      subst hb
      rfl⟩,
    evaluate_accuracy_100
      (fun _ : Unit =>
        (List.range 13).map fun j => if j = 5 then (1 : ℚ) else 0)
      [((), (List.range 13).map fun j => if j = 5 then (1 : ℚ) else 0)]
      (by decide) (by decide) (by
        intro b hb
        rw [List.mem_singleton] at hb
        subst hb
        rfl)⟩

/-! ## C7 and C9: properties of `predict` and `forward` values -/

theorem argmaxAux_lt {α : Type} [LinearOrder α] :
    ∀ (l : List α) (i bi : Nat) (bv : α), bi < i →
      argmaxAux l i bi bv < i + l.length
  | [], i, bi, bv, h => by simpa [argmaxAux] using h
  | a :: t, i, bi, bv, h => by
    simp only [argmaxAux, List.length_cons]
    by_cases hba : bv < a
    · rw [if_pos hba]
      have := argmaxAux_lt t (i + 1) i a (Nat.lt_succ_self i)
      omega
    · rw [if_neg hba]
      have := argmaxAux_lt t (i + 1) bi bv (h.trans (Nat.lt_succ_self i))
      omega

theorem argmaxIdx_lt_length {α : Type} [LinearOrder α] (l : List α)
    (hl : l ≠ []) : argmaxIdx l < l.length := by
  match l with
  | [] => exact absurd rfl hl
  | a :: t =>
    simp only [argmaxIdx, List.length_cons]
    have := argmaxAux_lt t 1 0 a Nat.one_pos
    omega

theorem sigmoid_nonneg (x : ℝ) : 0 ≤ sigmoid x := by
  unfold sigmoid
  positivity

theorem sigmoid_le_one (x : ℝ) : sigmoid x ≤ 1 := by
  unfold sigmoid
  rw [div_le_one (by positivity)]
  have h := Real.exp_pos (-x)
  linarith

/-- C9: every component of the tensor returned by
`VoltorbFlipCNN.forward` lies in the closed interval `[0, 1]`, because
the final operation applied is the element-wise sigmoid. -/
theorem forward_output_in_unit_interval {b : Nat} (W : Weights)
    (xs : Fin b → Img 3 32 32) (s : Fin b) (k : Fin 585) :
    0 ≤ forwardBatch W xs s k ∧ forwardBatch W xs s k ≤ 1 :=
  ⟨sigmoid_nonneg _, sigmoid_le_one _⟩

/-- C7: for every single input image, `VoltorbFlipCNN.predict` returns
the per-group arg-max of the 585-wide output viewed as 45 groups of 13:
a vector of exactly `N_FEATURES = 45` class indices, each in
`[0, N_CLASSES)`. -/
theorem predict_valid_indices {ι : Type} (W : Weights)
    (tf : ι → Img 3 32 32) (rgb : ι → ι) (input_image : ι) :
    (predict W tf rgb input_image).length = N_FEATURES ∧
    ∀ i : Fin (predict W tf rgb input_image).length,
      (predict W tf rgb input_image).get i < N_CLASSES := by
  have hmem : ∀ v ∈ predict W tf rgb input_image, v < N_CLASSES := by
    intro v hv
    simp only [predict, List.mem_map] at hv
    obtain ⟨g, _, rfl⟩ := hv
    have hne : ((List.finRange 13).map fun j =>
        forward W (tf (rgb input_image))
          ⟨13 * g.val + j.val, by
            have hg : g.val < 45 := g.isLt
            have hj : j.val < 13 := j.isLt
            omega⟩) ≠ [] := by
      intro he
      have := congrArg List.length he
      simp at this
    have hlt := argmaxIdx_lt_length _ hne
    simpa using hlt
  constructor
  · simp only [predict, List.length_map, List.length_finRange]
    rfl
  · intro i
    exact hmem _ (List.get_mem _ _ i.isLt)
